import Mathlib

set_option maxHeartbeats 1000000

/-!
Verification development for the tiny-systems encoding-module JWT encoder
(`components/jwt/encode`): a shallow embedding of `claims.go` and
`encode.go` together with theorems about the claimed behaviour.
-/

namespace JwtEncode

/-- JSON-compatible claim values, as held in the Go `map[string]interface{}`
claims document.  Besides the shapes a JSON decode produces (string, float64
number, bool, null, `[]interface{}`, nested map), the source's type switches
also distinguish `json.Number` (carried as its literal text) and `[]string`,
so both appear as variants. -/
inductive JsonValue where
  | str (s : String)
  | num (q : ℚ)
  | jnum (s : String)
  | bool (b : Bool)
  | null
  | arr (xs : List JsonValue)
  | sarr (xs : List String)
  | obj (fs : List (String × JsonValue))

/-- A claims document: the Go `MapClaims = map[string]interface{}`, embedded
as an association list with unique keys.  `claimLookup` models Go map
indexing `m[key]`. -/
def MapClaims := List (String × JsonValue)

def claimLookup (key : String) : List (String × JsonValue) → Option JsonValue
  | [] => none
  | (k, v) :: rest => if k = key then some v else claimLookup key rest

/-- The error kinds of the subsystem (spec §7).  `errInvalidClaimType` carries
the offending claim key, as `newError(fmt.Sprintf("%s is invalid", key),
jwt.ErrInvalidType)` does in `claims.go`. -/
inductive SignError where
  | errKeyParse (detail : String)
  | errInvalidClaimType (key : String)
  | errSigningFailed (detail : String)
deriving DecidableEq

/-- Truncation of a rational toward zero: Go's `int64(f)` conversion and the
integer part produced by `math.Modf`. -/
def ratTrunc (q : ℚ) : Int := q.num.tdiv q.den

/-- Go `time.Unix(sec, nsec)` as a total-nanosecond timestamp; the
normalisation of `nsec` into `[0, 1e9)` is definitional in this encoding. -/
def unixTotalNs (sec nsec : Int) : Int := sec * 1000000000 + nsec

/-- `newNumericDateFromSeconds` (claims.go): `round, frac := math.Modf(f);
time.Unix(int64(round), int64(frac*1e9))`.  The `jwt.NewNumericDate` wrapper
is external to the repository; modelled from the spec, it preserves the
decomposed (whole seconds, fractional nanoseconds) value. -/
def newNumericDateFromSeconds (q : ℚ) : Int :=
  unixTotalNs (ratTrunc q) (ratTrunc ((q - (ratTrunc q : ℚ)) * 1000000000))

/-- Whole seconds of a total-nanosecond timestamp. -/
def dateWholeSeconds (d : Int) : Int := d.fdiv 1000000000

/-- Fractional nanoseconds of a total-nanosecond timestamp. -/
def dateFracNanos (d : Int) : Int := d.emod 1000000000

/-- Split a character list on a separator character (every occurrence). -/
def charSplit (sep : Char) : List Char → List (List Char)
  | [] => [[]]
  | c :: rest =>
    if c = sep then [] :: charSplit sep rest
    else
      match charSplit sep rest with
      | [] => [[c]]
      | s :: ss => (c :: s) :: ss

/-- Leading sign of a Go numeric literal. -/
def readSign : List Char → Int × List Char
  | '-' :: rest => (-1, rest)
  | '+' :: rest => (1, rest)
  | cs => (1, cs)

/-- Value of a (possibly empty) run of decimal digits. -/
def decDigitsVal (cs : List Char) : Option Nat :=
  if cs.all Char.isDigit then some (cs.foldl (fun a c => a * 10 + (c.toNat - 48)) 0)
  else none

/-- Mantissa of a decimal literal: `digits`, `digits.`, `.digits` or
`digits.digits`; a bare `.` or empty mantissa is invalid. -/
def readMantissa (cs : List Char) : Option ℚ :=
  match charSplit '.' cs with
  | [ip] =>
    if ip = [] then none else (decDigitsVal ip).map (fun n => (n : ℚ))
  | [ip, fp] =>
    if ip = [] && fp = [] then none
    else
      match decDigitsVal ip, decDigitsVal fp with
      | some a, some b => some ((a : ℚ) + (b : ℚ) / (10 : ℚ) ^ fp.length)
      | _, _ => none
  | _ => none

/-- Exponent part after `e`/`E`: optional sign then nonempty digits. -/
def readExponent (cs : List Char) : Option Int :=
  let (sg, ds) := readSign cs
  if ds = [] then none else (decDigitsVal ds).map (fun n => sg * (n : Int))

/-- Modelled from the spec and Go stdlib: the decimal/exponent forms accepted
by `strconv.ParseFloat` (the source of `json.Number.Float64`), which is not
part of this repository.  Exactly these forms are the JSON numeric literals a
`json.Number` holds. -/
def goParseFloat (s : String) : Option ℚ :=
  let (sg, cs) := readSign s.data
  let norm := cs.map (fun c => if c = 'E' then 'e' else c)
  match charSplit 'e' norm with
  | [mant] => (readMantissa mant).map (fun q => (sg : ℚ) * q)
  | [mant, ex] =>
    match readMantissa mant, readExponent ex with
    | some q, some e => some ((sg : ℚ) * q * (10 : ℚ) ^ e)
    | _, _ => none
  | _ => none

/-- `MapClaims.parseNumericDate` (claims.go lines 49–69).  `Except.ok none`
is Go's `(nil, nil)` ("absent").  On the `json.Number` branch the conversion
error of `Float64()` is discarded (`v, _ := exp.Float64()`), leaving the Go
zero value `0` on failure — modelled by `getD 0`. -/
def parseNumericDate (m : List (String × JsonValue)) (key : String) :
    Except SignError (Option Int) :=
  match claimLookup key m with
  | none => .ok none
  | some v =>
    match v with
    | .num q => if q = 0 then .ok none else .ok (some (newNumericDateFromSeconds q))
    | .jnum s => .ok (some (newNumericDateFromSeconds ((goParseFloat s).getD 0)))
    | _ => .error (.errInvalidClaimType key)

/-- The loop body of `parseClaimsString` over a `[]interface{}` value: each
element must be a string, otherwise `ErrInvalidType` with the key name. -/
def collectStrings (key : String) : List JsonValue → Except SignError (List String)
  | [] => .ok []
  | a :: rest =>
    match a with
    | .str s => (collectStrings key rest).map (fun cs => s :: cs)
    | _ => .error (.errInvalidClaimType key)

/-- `MapClaims.parseClaimsString` (claims.go lines 73–91).  The type switch
on `m[key]` has cases for `string`, `[]string` and `[]interface{}`; every
other value — including a missing key — falls through and yields the nil
(empty) slice with no error. -/
def parseClaimsString (m : List (String × JsonValue)) (key : String) :
    Except SignError (List String) :=
  match claimLookup key m with
  | some (.str v) => .ok [v]
  | some (.sarr v) => .ok v
  | some (.arr v) => collectStrings key v
  | _ => .ok []

/-- `MapClaims.parseString` (claims.go lines 96–113). -/
def parseString (m : List (String × JsonValue)) (key : String) :
    Except SignError String :=
  match claimLookup key m with
  | none => .ok ""
  | some (.str s) => .ok s
  | some _ => .error (.errInvalidClaimType key)

/-- Values outside the two numeric branches of `parseNumericDate`'s type
switch. -/
def notNumericValue : JsonValue → Bool
  | .num _ => false
  | .jnum _ => false
  | _ => true

/-- Values outside all three branches of `parseClaimsString`'s type switch:
neither a string nor a sequence. -/
def notStringOrSequence : JsonValue → Bool
  | .str _ => false
  | .arr _ => false
  | .sarr _ => false
  | _ => true

/-- UTF-8 encoding of one character (Go `[]byte(s)` on string data). -/
def utf8Bytes (c : Char) : List Nat :=
  let n := c.toNat
  if n < 128 then [n]
  else if n < 2048 then [192 + n / 64, 128 + n % 64]
  else if n < 65536 then [224 + n / 4096, 128 + n / 64 % 64, 128 + n % 64]
  else [240 + n / 262144, 128 + n / 4096 % 64, 128 + n / 64 % 64, 128 + n % 64]

def flattenBytes : List (List Nat) → List Nat
  | [] => []
  | l :: ls => l ++ flattenBytes ls

/-- Go `[]byte(s)`: the UTF-8 bytes of a string. -/
def utf8Str (s : String) : List Nat := flattenBytes (s.data.map utf8Bytes)

/-- The base64url alphabet (RFC 4648 §5), as used by the compact token
serialization. -/
def b64Alphabet : List Char :=
  "ABCDEFGHIJKLMNOPQRSTUVWXYZabcdefghijklmnopqrstuvwxyz0123456789-_".data

def b64Char (n : Nat) : Char := b64Alphabet.getD n 'A'

def b64ValAux (c : Char) : List Char → Nat → Option Nat
  | [], _ => none
  | a :: rest, i => if a = c then some i else b64ValAux c rest (i + 1)

def b64Val (c : Char) : Option Nat := b64ValAux c b64Alphabet 0

/-- Raw (unpadded) base64url encoding of a byte sequence, as
`base64.RawURLEncoding` used by the jwt library's `EncodeSegment`. -/
def b64urlEncode : List Nat → List Char
  | [] => []
  | [a] => [b64Char (a / 4), b64Char (a % 4 * 16)]
  | [a, b] => [b64Char (a / 4), b64Char (a % 4 * 16 + b / 16), b64Char (b % 16 * 4)]
  | a :: b :: c :: rest =>
    b64Char (a / 4) :: b64Char (a % 4 * 16 + b / 16) ::
      b64Char (b % 16 * 4 + c / 64) :: b64Char (c % 64) :: b64urlEncode rest

/-- Raw base64url decoding, the inverse of `b64urlEncode`. -/
def b64urlDecode : List Char → Option (List Nat)
  | [] => some []
  | [w, x] =>
    match b64Val w, b64Val x with
    | some a, some b => some [a * 4 + b / 16]
    | _, _ => none
  | [w, x, y] =>
    match b64Val w, b64Val x, b64Val y with
    | some a, some b, some c => some [a * 4 + b / 16, b % 16 * 16 + c / 4]
    | _, _, _ => none
  | w :: x :: y :: z :: rest =>
    match b64Val w, b64Val x, b64Val y, b64Val z, b64urlDecode rest with
    | some a, some b, some c, some d, some bs =>
      some ((a * 4 + b / 16) :: (b % 16 * 16 + c / 4) :: (c % 4 * 64 + d) :: bs)
    | _, _, _, _, _ => none
  | _ => none

/-- JSON string escaping as `encoding/json` performs it (quote, backslash,
control characters, and the HTML-sensitive `<`, `>`, `&`). -/
def hexChar (n : Nat) : Char :=
  "0123456789abcdef".data.getD n '0'

def escapeChar (c : Char) : String :=
  if c = '"' then "\\\""
  else if c = '\\' then "\\\\"
  else if c = '\n' then "\\n"
  else if c = '\r' then "\\r"
  else if c = '\t' then "\\t"
  else if c.toNat < 32 then
    "\\u00" ++ String.mk [hexChar (c.toNat / 16), hexChar (c.toNat % 16)]
  else if c = '<' then "\\u003c"
  else if c = '>' then "\\u003e"
  else if c = '&' then "\\u0026"
  else String.singleton c

def jsonQuote (s : String) : String :=
  "\"" ++ String.join (s.data.map escapeChar) ++ "\""

/-- Decimal digits of the fractional part of a nonnegative rational
(truncated, fuel-bounded like float formatting precision). -/
def fracDigitsAux : Nat → ℚ → List Char
  | 0, _ => []
  | fuel + 1, q =>
    if q = 0 then []
    else
      let q10 := q * 10
      let d := ratTrunc q10
      Char.ofNat (48 + d.toNat) :: fracDigitsAux fuel (q10 - (d : ℚ))

def ratDecimalNonneg (q : ℚ) : String :=
  let ip := ratTrunc q
  if q - (ip : ℚ) = 0 then toString ip
  else toString ip ++ "." ++ String.mk (fracDigitsAux 17 (q - (ip : ℚ)))

/-- Decimal rendering of a JSON number (the claims in this development never
exercise number formatting; any deterministic decimal form suffices). -/
def ratDecimal (q : ℚ) : String :=
  if q < 0 then "-" ++ ratDecimalNonneg (-q) else ratDecimalNonneg q

def commaJoin : List String → String
  | [] => ""
  | [s] => s
  | s :: rest => s ++ "," ++ commaJoin rest

def insertByKey (p : String × JsonValue) :
    List (String × JsonValue) → List (String × JsonValue)
  | [] => [p]
  | q :: rest => if p.1 < q.1 then p :: q :: rest else q :: insertByKey p rest

/-- `encoding/json` marshals Go maps with keys in sorted order. -/
def sortByKey (fs : List (String × JsonValue)) : List (String × JsonValue) :=
  fs.foldr insertByKey []

/-- Compact JSON serialization of a claim value (fuel-bounded recursion into
nested arrays/objects; the entry points always supply enough fuel). -/
def serializeJsonF : Nat → JsonValue → String
  | _, .str s => jsonQuote s
  | _, .num q => ratDecimal q
  | _, .jnum s => s
  | _, .bool b => if b then "true" else "false"
  | _, .null => "null"
  | 0, .arr _ => ""
  | fuel + 1, .arr xs => "[" ++ commaJoin (xs.map (serializeJsonF fuel)) ++ "]"
  | _, .sarr xs => "[" ++ commaJoin (xs.map jsonQuote) ++ "]"
  | 0, .obj _ => ""
  | fuel + 1, .obj fs =>
    "\x7b" ++
      commaJoin ((sortByKey fs).map
        (fun kv => jsonQuote kv.1 ++ ":" ++ serializeJsonF fuel kv.2)) ++
      "\x7d"

mutual

/-- Structural size of a claim value, used only to supply recursion fuel. -/
def jsonSize : JsonValue → Nat
  | .arr xs => jsonSizeList xs + 1
  | .obj fs => jsonSizeFields fs + 1
  | _ => 1

def jsonSizeList : List JsonValue → Nat
  | [] => 0
  | v :: vs => jsonSize v + jsonSizeList vs

def jsonSizeFields : List (String × JsonValue) → Nat
  | [] => 0
  | kv :: fs => jsonSize kv.2 + jsonSizeFields fs

end

/-- `json.Marshal` of the `MapClaims` map: a JSON object with sorted keys. -/
def marshalClaims (m : List (String × JsonValue)) : String :=
  serializeJsonF (jsonSizeFields m + 1) (.obj m)

/-- The closed signing-method enumeration. -/
inductive Method where
  | ES256 | ES384 | ES512 | HS256 | HS384 | HS512 | RS256 | RS384 | RS512 | None
deriving DecidableEq

/-- `method.Alg()`: the header name of each method (`jwt.SigningMethodNone`
names itself "none"). -/
def methodAlg : Method → String
  | .ES256 => "ES256"
  | .ES384 => "ES384"
  | .ES512 => "ES512"
  | .HS256 => "HS256"
  | .HS384 => "HS384"
  | .HS512 => "HS512"
  | .RS256 => "RS256"
  | .RS384 => "RS384"
  | .RS512 => "RS512"
  | .None => "none"

/-- The `key interface{}` variable of Handle: nil until a case of the switch
assigns it; `[]byte` for the HMAC family; a parsed private key — or the
typed-nil pointer a failed parse returns — for the asymmetric families. -/
inductive KeyVal where
  | nilKey
  | bytes (bs : List Nat)
  | ecKey (pem : String)
  | ecNil
  | rsaKey (pem : String)
  | rsaNil

def isCharListPrefix : List Char → List Char → Bool
  | [], _ => true
  | _ :: _, [] => false
  | a :: as, b :: bs => a = b && isCharListPrefix as bs

/-- Modelled from the spec: structural validity of key text for the EC
family (`jwt.ParseECPrivateKeyFromPEM` is outside this repository); plain
text without a PEM block is invalid. -/
def validECPEM (s : String) : Bool := isCharListPrefix "-----BEGIN ".data s.data

/-- Modelled from the spec: structural validity of key text for the RSA
family (`jwt.ParseRSAPrivateKeyFromPEM` is outside this repository). -/
def validRSAPEM (s : String) : Bool := isCharListPrefix "-----BEGIN ".data s.data

/-- `key, err = jwt.ParseECPrivateKeyFromPEM([]byte(in.Key))`: on failure the
returned typed-nil pointer still lands in `key` and the error in `err`. -/
def parseECKeyFromPEM (s : String) : KeyVal × Option SignError :=
  if validECPEM s then (.ecKey s, Option.none)
  else (.ecNil, some (.errKeyParse "invalid key: key must be a PEM encoded key"))

/-- `key, err = jwt.ParseRSAPrivateKeyFromPEM([]byte(in.Key))`. -/
def parseRSAKeyFromPEM (s : String) : KeyVal × Option SignError :=
  if validRSAPEM s then (.rsaKey s, Option.none)
  else (.rsaNil, some (.errKeyParse "invalid key: key must be a PEM encoded key"))

/-- The ten selector strings of the enumeration (the request schema's
options list in `Ports`). -/
def methodSelectors : List String :=
  ["ES256", "ES384", "ES512", "HS256", "HS384", "HS512", "RS256", "RS384", "RS512", "None"]

/-- The `switch in.SigningMethod.Value` of Handle (encode.go lines 106–142):
`method` starts as HS256 and `key` as the nil interface; each case assigns
both (or, for "None" and for an unmatched selector, only the method or
nothing), and the parse error lands in `err`. -/
def resolveMethodKey (sel keyText : String) : Method × (KeyVal × Option SignError) :=
  match sel with
  | "ES256" => (.ES256, parseECKeyFromPEM keyText)
  | "ES384" => (.ES384, parseECKeyFromPEM keyText)
  | "ES512" => (.ES512, parseECKeyFromPEM keyText)
  | "HS256" => (.HS256, (.bytes (utf8Str keyText), Option.none))
  | "HS384" => (.HS384, (.bytes (utf8Str keyText), Option.none))
  | "HS512" => (.HS512, (.bytes (utf8Str keyText), Option.none))
  | "RS256" => (.RS256, parseRSAKeyFromPEM keyText)
  | "RS384" => (.RS384, parseRSAKeyFromPEM keyText)
  | "RS512" => (.RS512, parseRSAKeyFromPEM keyText)
  | "None" => (.None, (.nilKey, Option.none))
  | _ => (.HS256, (.nilKey, Option.none))

/-- Ambient effects (clock, randomness source) available to an invocation.
The spec states the engine introduces neither into the token. -/
structure Env where
  time : Nat
  randSeed : Nat

def envZero : Env := ⟨0, 0⟩

/-- Deterministic stand-in for a keyed digest; no claim constrains the
signature bytes themselves, only their determinism and segment shape. -/
def macBytes (alg : String) (input : List Char) (key : List Nat) : List Nat :=
  utf8Str alg ++ key ++ input.map Char.toNat

/-- Modelled from the spec: the signature primitives of the external jwt
library.  Each family requires the matching parsed key and is a pure
deterministic function of (method, signing input, key) — the spec's §4.3
idempotence; a key of the wrong shape is rejected by the primitive
(`ErrSigningFailed`, spec §7); `None` produces the empty signature and
requires no key. -/
def signPrimitive (_env : Env) (m : Method) (input : List Char) (key : KeyVal) :
    Except SignError (List Nat) :=
  match m with
  | .HS256 | .HS384 | .HS512 =>
    match key with
    | .bytes bs => .ok (macBytes (methodAlg m) input bs)
    | _ => .error (.errSigningFailed "key is of invalid type")
  | .ES256 | .ES384 | .ES512 =>
    match key with
    | .ecKey pem => .ok (macBytes (methodAlg m) input (utf8Str pem))
    | _ => .error (.errSigningFailed "key is of invalid type")
  | .RS256 | .RS384 | .RS512 =>
    match key with
    | .rsaKey pem => .ok (macBytes (methodAlg m) input (utf8Str pem))
    | _ => .error (.errSigningFailed "key is of invalid type")
  | .None => .ok []

/-- The marshalled JWT header: `json.Marshal` of
`map[string]interface{}{"typ": "JWT", "alg": method.Alg()}` (sorted keys). -/
def headerJson (m : Method) : String :=
  "\x7b\"alg\":\"" ++ methodAlg m ++ "\",\"typ\":\"JWT\"\x7d"

/-- `jwt.NewWithClaims(method, claims).SignedString(key)`, per the wire
format of spec §6: serialize header and payload, base64url-encode both, sign
`b64(header) ++ "." ++ b64(payload)`, and append the encoded signature. -/
def signedString (env : Env) (m : Method) (claims : List (String × JsonValue))
    (key : KeyVal) : Except SignError (List Char) :=
  let h := b64urlEncode (utf8Str (headerJson m))
  let p := b64urlEncode (utf8Str (marshalClaims claims))
  let signingInput := h ++ '.' :: p
  match signPrimitive env m signingInput key with
  | .error e => .error e
  | .ok sig => .ok (signingInput ++ '.' :: b64urlEncode sig)

/-- The request carried on the request port. -/
structure Request where
  context : JsonValue
  signingMethod : String
  claims : List (String × JsonValue)
  key : String

/-- The observable outcome of Handle on the request port: a Response on the
response port, an Error message on the error port (when enabled), or the raw
error returned to the framework (when the error port is disabled). -/
inductive HandleResult where
  | response (context : JsonValue) (token : List Char)
  | errorOut (context : JsonValue) (errText : String)
  | rawError (errText : String)

/-- `err.Error()` strings: `newError` in claims.go wraps `jwt.ErrInvalidType`
("invalid type for claim") with the key name; the other kinds carry their
detail text. -/
def errString : SignError → String
  | .errKeyParse d => d
  | .errInvalidClaimType key => "invalid type for claim: " ++ key ++ " is invalid"
  | .errSigningFailed d => d

def setResultContext (c : JsonValue) : HandleResult → HandleResult
  | .response _ t => .response c t
  | .errorOut _ e => .errorOut c e
  | .rawError e => .rawError e

/-- Handle (encode.go, RequestPort case).  The parse error from the key
resolution is computed and then discarded: line 144 `token, err :=` is a
short variable declaration that redeclares `err` in the same block, so the
unchecked parse error is overwritten by the result of `SignedString`. -/
def handleRequest (env : Env) (enableErrorPort : Bool) (req : Request) :
    HandleResult :=
  let r := resolveMethodKey req.signingMethod req.key
  match signedString env r.1 req.claims r.2.1 with
  | .ok token => .response req.context token
  | .error e =>
    if enableErrorPort then .errorOut req.context (errString e)
    else .rawError (errString e)

end JwtEncode

namespace JwtEncode

theorem ratTrunc_datehalf : ratTrunc (1700000000.5 : ℚ) = 1700000000 := by
  simp only [ratTrunc]
  norm_num
  decide

theorem ratTrunc_half_billion : ratTrunc (500000000 : ℚ) = 500000000 := by
  simp only [ratTrunc]
  norm_num

theorem ratTrunc_zero : ratTrunc (0 : ℚ) = 0 := by
  simp only [ratTrunc]
  norm_num

theorem nnds_datehalf :
    newNumericDateFromSeconds (1700000000.5 : ℚ) = 1700000000500000000 := by
  have h2 : ((1700000000.5 : ℚ) - ((1700000000 : Int) : ℚ)) * 1000000000 =
      (500000000 : ℚ) := by norm_num
  simp only [newNumericDateFromSeconds, ratTrunc_datehalf, h2, ratTrunc_half_billion,
    unixTotalNs]
  decide

theorem nnds_zero : newNumericDateFromSeconds 0 = 0 := by
  have h2 : ((0 : ℚ) - ((0 : Int) : ℚ)) * 1000000000 = (0 : ℚ) := by norm_num
  simp only [newNumericDateFromSeconds, ratTrunc_zero, h2, unixTotalNs]
  decide

theorem goParseFloat_zero : goParseFloat "0" = some 0 := by
  have h0 : "0".data = ['0'] := rfl
  have h1 : charSplit 'e' ['0'] = [['0']] := by decide
  have h2 : charSplit '.' ['0'] = [['0']] := by decide
  have h3 : decDigitsVal ['0'] = some 0 := by decide
  simp [goParseFloat, readSign, h0, readMantissa, h1, h2, h3]

theorem goParseFloat_nan : goParseFloat "not-a-number" = none := by
  have h0 : "not-a-number".data = ['n','o','t','-','a','-','n','u','m','b','e','r'] := rfl
  have h1 : charSplit 'e' ['n','o','t','-','a','-','n','u','m','b','e','r'] =
      [['n','o','t','-','a','-','n','u','m','b'], ['r']] := by decide
  have h2 : readMantissa ['n','o','t','-','a','-','n','u','m','b'] = none := by
    have hs : charSplit '.' ['n','o','t','-','a','-','n','u','m','b'] =
        [['n','o','t','-','a','-','n','u','m','b']] := by decide
    have hd : decDigitsVal ['n','o','t','-','a','-','n','u','m','b'] = none := by decide
    simp [readMantissa, hs, hd]
  simp [goParseFloat, readSign, h0, h1, h2]

/-- C5: `numericDate` returns "absent" when the key is missing and when the
claim holds the float value exactly `0`; on `1700000000.5` it returns whole
seconds `1700000000` and fractional nanoseconds `500000000`; any non-numeric
value yields `ErrInvalidClaimType` carrying the key name. -/
theorem parseNumericDate_coercion :
    (∀ m key, claimLookup key m = none → parseNumericDate m key = .ok none) ∧
    (∀ m key, claimLookup key m = some (.num 0) → parseNumericDate m key = .ok none) ∧
    (∀ m key, claimLookup key m = some (.num (1700000000.5 : ℚ)) →
      ∃ d, parseNumericDate m key = .ok (some d) ∧
        dateWholeSeconds d = 1700000000 ∧ dateFracNanos d = 500000000) ∧
    (∀ m key v, claimLookup key m = some v → notNumericValue v = true →
      parseNumericDate m key = .error (.errInvalidClaimType key)) := by
  refine ⟨?_, ?_, ?_, ?_⟩
  · intro m key h; simp [parseNumericDate, h]
  · intro m key h; simp [parseNumericDate, h]
  · intro m key h
    have hne : (1700000000.5 : ℚ) ≠ 0 := by norm_num
    refine ⟨1700000000500000000, ?_, by decide, by decide⟩
    simp [parseNumericDate, h, hne, nnds_datehalf]
  · intro m key v h hv
    cases v <;> simp_all [parseNumericDate, notNumericValue]

/-- Witness for C5 at concrete documents. -/
theorem parseNumericDate_coercion_witness :
    parseNumericDate [] "exp" = .ok none ∧
    parseNumericDate [("exp", .num 0)] "exp" = .ok none ∧
    (∃ d, parseNumericDate [("exp", .num (1700000000.5 : ℚ))] "exp" = .ok (some d) ∧
      dateWholeSeconds d = 1700000000 ∧ dateFracNanos d = 500000000) ∧
    parseNumericDate [("exp", .str "soon")] "exp" =
      .error (.errInvalidClaimType "exp") :=
  ⟨parseNumericDate_coercion.1 [] "exp" rfl,
   parseNumericDate_coercion.2.1 [("exp", .num 0)] "exp" rfl,
   parseNumericDate_coercion.2.2.1 [("exp", .num (1700000000.5 : ℚ))] "exp" rfl,
   parseNumericDate_coercion.2.2.2 [("exp", .str "soon")] "exp" (.str "soon") rfl rfl⟩

/-- C6: the audience accessor wraps a single string into a one-element
sequence, passes a sequence of strings through unchanged, rejects a sequence
containing a non-string element with `ErrInvalidClaimType`, and yields the
empty sequence (not an error) when the claim is absent. -/
theorem parseClaimsString_audience :
    (∀ m, claimLookup "aud" m = some (.str "api") →
      parseClaimsString m "aud" = .ok ["api"]) ∧
    (∀ m a b, claimLookup "aud" m = some (.arr [.str a, .str b]) →
      parseClaimsString m "aud" = .ok [a, b]) ∧
    (∀ m, claimLookup "aud" m = some (.arr [.num 1, .num 2]) →
      parseClaimsString m "aud" = .error (.errInvalidClaimType "aud")) ∧
    (∀ m, claimLookup "aud" m = none → parseClaimsString m "aud" = .ok []) := by
  refine ⟨?_, ?_, ?_, ?_⟩
  · intro m h; simp [parseClaimsString, h]
  · intro m a b h; simp [parseClaimsString, h, collectStrings, Except.map]
  · intro m h; simp [parseClaimsString, h, collectStrings]
  · intro m h; simp [parseClaimsString, h]

/-- Witness for C6 at concrete documents. -/
theorem parseClaimsString_audience_witness :
    parseClaimsString [("aud", .str "api")] "aud" = .ok ["api"] ∧
    parseClaimsString [("aud", .arr [.str "a", .str "b"])] "aud" = .ok ["a", "b"] ∧
    parseClaimsString [("aud", .arr [.num 1, .num 2])] "aud" =
      .error (.errInvalidClaimType "aud") ∧
    parseClaimsString [] "aud" = .ok [] :=
  ⟨parseClaimsString_audience.1 [("aud", .str "api")] rfl,
   parseClaimsString_audience.2.1 [("aud", .arr [.str "a", .str "b"])] "a" "b" rfl,
   parseClaimsString_audience.2.2.1 [("aud", .arr [.num 1, .num 2])] rfl,
   parseClaimsString_audience.2.2.2 [] rfl⟩

/-- C9 (implicit): an audience value that is neither a string nor a sequence
(number, boolean, null, `json.Number`, nested object) falls through the type
switch and yields the empty sequence with no error, exactly like an absent
claim; the typed error arises only inside a sequence. -/
theorem parseClaimsString_scalar_empty :
    ∀ m v, claimLookup "aud" m = some v → notStringOrSequence v = true →
      parseClaimsString m "aud" = .ok [] := by
  intro m v h hv
  cases v <;> simp_all [parseClaimsString, notStringOrSequence]

/-- Witness for C9: a numeric audience yields the empty sequence, no error. -/
theorem parseClaimsString_scalar_empty_witness :
    parseClaimsString [("aud", .num 7)] "aud" = .ok [] :=
  parseClaimsString_scalar_empty [("aud", .num 7)] (.num 7) rfl rfl

/-- C10 (implicit): a `json.Number` claim value is never treated as absent
and never reports a conversion failure: the result is always a present
timestamp; `json.Number("0")` yields the timestamp `0` (not "absent"), and
unparseable text also yields a timestamp built from `0` because the
conversion error of `Float64()` is discarded. -/
theorem parseNumericDate_jsonNumber :
    (∀ m key s, claimLookup key m = some (.jnum s) →
      ∃ d, parseNumericDate m key = .ok (some d)) ∧
    (∀ m key, claimLookup key m = some (.jnum "0") →
      parseNumericDate m key = .ok (some 0)) ∧
    (∀ m key, claimLookup key m = some (.jnum "not-a-number") →
      parseNumericDate m key = .ok (some 0)) := by
  refine ⟨?_, ?_, ?_⟩
  · intro m key s h
    exact ⟨newNumericDateFromSeconds ((goParseFloat s).getD 0), by simp [parseNumericDate, h]⟩
  · intro m key h
    simp [parseNumericDate, h, goParseFloat_zero, nnds_zero]
  · intro m key h
    simp [parseNumericDate, h, goParseFloat_nan, nnds_zero]

/-- Witness for C10 at concrete documents. -/
theorem parseNumericDate_jsonNumber_witness :
    (∃ d, parseNumericDate [("iat", .jnum "12")] "iat" = .ok (some d)) ∧
    parseNumericDate [("iat", .jnum "0")] "iat" = .ok (some 0) ∧
    parseNumericDate [("iat", .jnum "not-a-number")] "iat" = .ok (some 0) :=
  ⟨parseNumericDate_jsonNumber.1 [("iat", .jnum "12")] "iat" "12" rfl,
   parseNumericDate_jsonNumber.2.1 [("iat", .jnum "0")] "iat" rfl,
   parseNumericDate_jsonNumber.2.2 [("iat", .jnum "not-a-number")] "iat" rfl⟩

end JwtEncode

namespace JwtEncode

theorem b64Val_b64Char : ∀ n, n < 64 → b64Val (b64Char n) = some n := by decide

theorem b64Alphabet_length : b64Alphabet.length = 64 := by decide

theorem b64Char_not_sep (n : Nat) : b64Char n ≠ '.' ∧ b64Char n ≠ '=' := by
  by_cases h : n < 64
  · exact (by decide : ∀ m, m < 64 → b64Char m ≠ '.' ∧ b64Char m ≠ '=') n h
  · have hA : b64Char n = 'A' := by
      unfold b64Char
      exact List.getD_eq_default _ _ (by rw [b64Alphabet_length]; omega)
    rw [hA]
    exact ⟨by decide, by decide⟩

theorem mem_b64urlEncode :
    ∀ (bs : List Nat) (c : Char), c ∈ b64urlEncode bs → ∃ n, c = b64Char n
  | [], c, h => by simp [b64urlEncode] at h
  | [a], c, h => by
    simp [b64urlEncode] at h
    rcases h with h | h <;> exact ⟨_, h⟩
  | [a, b], c, h => by
    simp [b64urlEncode] at h
    rcases h with h | h | h <;> exact ⟨_, h⟩
  | a :: b :: d :: rest, c, h => by
    simp only [b64urlEncode, List.mem_cons] at h
    rcases h with h | h | h | h | h
    · exact ⟨_, h⟩
    · exact ⟨_, h⟩
    · exact ⟨_, h⟩
    · exact ⟨_, h⟩
    · exact mem_b64urlEncode rest c h

theorem b64urlEncode_no_dot (bs : List Nat) : '.' ∉ b64urlEncode bs := by
  intro h
  obtain ⟨n, hn⟩ := mem_b64urlEncode bs '.' h
  exact (b64Char_not_sep n).1 hn.symm

theorem b64urlEncode_no_pad (bs : List Nat) : '=' ∉ b64urlEncode bs := by
  intro h
  obtain ⟨n, hn⟩ := mem_b64urlEncode bs '=' h
  exact (b64Char_not_sep n).2 hn.symm

theorem b64_roundtrip :
    ∀ (bs : List Nat), (∀ b ∈ bs, b < 256) →
      b64urlDecode (b64urlEncode bs) = some bs
  | [], _ => rfl
  | [a], h => by
    have ha : a < 256 := h a (by simp)
    have h1 : b64Val (b64Char (a / 4)) = some (a / 4) := b64Val_b64Char _ (by omega)
    have h2 : b64Val (b64Char (a % 4 * 16)) = some (a % 4 * 16) :=
      b64Val_b64Char _ (by omega)
    simp only [b64urlEncode, b64urlDecode, h1, h2]
    simp
    omega
  | [a, b], h => by
    have ha : a < 256 := h a (by simp)
    have hb : b < 256 := h b (by simp)
    have h1 : b64Val (b64Char (a / 4)) = some (a / 4) := b64Val_b64Char _ (by omega)
    have h2 : b64Val (b64Char (a % 4 * 16 + b / 16)) = some (a % 4 * 16 + b / 16) :=
      b64Val_b64Char _ (by omega)
    have h3 : b64Val (b64Char (b % 16 * 4)) = some (b % 16 * 4) :=
      b64Val_b64Char _ (by omega)
    simp only [b64urlEncode, b64urlDecode, h1, h2, h3]
    simp
    omega
  | a :: b :: d :: rest, h => by
    have ha : a < 256 := h a (by simp)
    have hb : b < 256 := h b (by simp)
    have hd : d < 256 := h d (by simp)
    have ih := b64_roundtrip rest (fun x hx => h x (by simp [hx]))
    have h1 : b64Val (b64Char (a / 4)) = some (a / 4) := b64Val_b64Char _ (by omega)
    have h2 : b64Val (b64Char (a % 4 * 16 + b / 16)) = some (a % 4 * 16 + b / 16) :=
      b64Val_b64Char _ (by omega)
    have h3 : b64Val (b64Char (b % 16 * 4 + d / 64)) = some (b % 16 * 4 + d / 64) :=
      b64Val_b64Char _ (by omega)
    have h4 : b64Val (b64Char (d % 64)) = some (d % 64) := b64Val_b64Char _ (by omega)
    simp only [b64urlEncode, b64urlDecode, h1, h2, h3, h4, ih]
    simp
    omega

theorem charSplit_no_sep (sep : Char) :
    ∀ (a : List Char), sep ∉ a → charSplit sep a = [a]
  | [], _ => rfl
  | c :: cs, h => by
    have hc : ¬(c = sep) := fun e => h (e ▸ List.mem_cons_self c cs)
    have ih := charSplit_no_sep sep cs (fun hm => h (List.mem_cons_of_mem c hm))
    simp [charSplit, hc, ih]

theorem charSplit_append (sep : Char) :
    ∀ (a r : List Char), sep ∉ a →
      charSplit sep (a ++ sep :: r) = a :: charSplit sep r
  | [], r, _ => by simp [charSplit]
  | c :: cs, r, h => by
    have hc : ¬(c = sep) := fun e => h (e ▸ List.mem_cons_self c cs)
    have ih := charSplit_append sep cs r (fun hm => h (List.mem_cons_of_mem c hm))
    simp [charSplit, hc, ih]

theorem charSplit_token (h p s : List Char)
    (hh : '.' ∉ h) (hp : '.' ∉ p) (hs : '.' ∉ s) :
    charSplit '.' (h ++ '.' :: p ++ '.' :: s) = [h, p, s] := by
  have e : (h ++ '.' :: p) ++ '.' :: s = h ++ '.' :: (p ++ '.' :: s) := by
    simp [List.append_assoc]
  rw [e, charSplit_append '.' h (p ++ '.' :: s) hh,
    charSplit_append '.' p s hp, charSplit_no_sep '.' s hs]

theorem char_toNat_lt (c : Char) : c.toNat < 1114112 := by
  have h := c.valid
  rcases h with h | ⟨h1, h2⟩ <;> simp [Char.toNat] <;> omega

theorem utf8Bytes_lt256 (c : Char) : ∀ b ∈ utf8Bytes c, b < 256 := by
  intro b hb
  have h := char_toNat_lt c
  unfold utf8Bytes at hb
  by_cases h1 : c.toNat < 128
  · simp [h1] at hb
    omega
  · by_cases h2 : c.toNat < 2048
    · simp [h1, h2] at hb
      rcases hb with hb | hb <;> omega
    · by_cases h3 : c.toNat < 65536
      · simp [h1, h2, h3] at hb
        rcases hb with hb | hb | hb <;> omega
      · simp [h1, h2, h3] at hb
        rcases hb with hb | hb | hb | hb <;> omega

theorem utf8Str_lt256 (s : String) : ∀ b ∈ utf8Str s, b < 256 := by
  have hflat : ∀ (l : List Char), ∀ b ∈ flattenBytes (l.map utf8Bytes), b < 256 := by
    intro l
    induction l with
    | nil => simp [flattenBytes]
    | cons c cs ih =>
      intro b hb
      simp only [List.map_cons, flattenBytes, List.mem_append] at hb
      rcases hb with hb | hb
      · exact utf8Bytes_lt256 c b hb
      · exact ih b hb
  exact hflat s.data

end JwtEncode

namespace JwtEncode

/-- C2: with signing method `None`, for any claims document (in particular
the empty one) and any key text, Handle emits a response whose token has
three dot-separated segments with an empty signature segment; no key is
parsed and no key-parse error occurs (the resolution step leaves the key nil
with a nil error). -/
theorem none_method_empty_signature :
    ∀ (env : Env) (ep : Bool) (ctx : JsonValue)
      (claims : List (String × JsonValue)) (keyText : String),
      resolveMethodKey "None" keyText = (.None, (.nilKey, Option.none)) ∧
      ∃ h p, handleRequest env ep ⟨ctx, "None", claims, keyText⟩ =
          .response ctx (h ++ '.' :: p ++ '.' :: []) ∧
        charSplit '.' (h ++ '.' :: p ++ '.' :: []) = [h, p, []] := by
  intro env ep ctx claims keyText
  refine ⟨rfl, b64urlEncode (utf8Str (headerJson .None)),
    b64urlEncode (utf8Str (marshalClaims claims)), ?_, ?_⟩
  · have hr : resolveMethodKey "None" keyText = (.None, (.nilKey, Option.none)) := rfl
    simp [handleRequest, hr, signedString, signPrimitive, b64urlEncode]
  · exact charSplit_token _ _ [] (b64urlEncode_no_dot _) (b64urlEncode_no_dot _)
      (by simp)

/-- C4: signing is deterministic: the outcome of Handle is a function of the
request (claims, method selector, key text, context) and the settings alone;
the ambient environment (clock, randomness source) has no influence, so two
invocations on an identical triple yield byte-identical tokens. -/
theorem handle_deterministic :
    ∀ (e1 e2 : Env) (ep : Bool) (req : Request),
      handleRequest e1 ep req = handleRequest e2 ep req := by
  intro e1 e2 ep req
  rfl

/-- C8: the caller-supplied context is echoed back unchanged alongside the
result — in the success response and in the error-port message alike — and
the engine never inspects it: replacing the context of a request replaces
exactly the context of the outcome, leaving token and error text unchanged. -/
theorem context_echoed :
    ∀ (env : Env) (ep : Bool) (req : Request) (c : JsonValue),
      handleRequest env ep { req with context := c } =
        setResultContext c (handleRequest env ep req) ∧
      handleRequest env ep req =
        setResultContext req.context (handleRequest env ep req) := by
  have key : ∀ (env : Env) (ep : Bool) (req : Request) (c : JsonValue),
      handleRequest env ep { req with context := c } =
        setResultContext c (handleRequest env ep req) := by
    intro env ep req c
    unfold handleRequest
    cases hs : signedString env
        (resolveMethodKey req.signingMethod req.key).1 req.claims
        (resolveMethodKey req.signingMethod req.key).2.1 with
    | ok tok => simp [hs, setResultContext]
    | error e => cases ep <;> simp [hs, setResultContext]
  intro env ep req c
  refine ⟨key env ep req c, ?_⟩
  have h := key env ep req req.context
  simpa using h

end JwtEncode

namespace JwtEncode

/-- C1 (code-bug evaluation): with RS256 and non-PEM key text the parse step
does produce `ErrKeyParse`, but Handle overwrites the unchecked `err` at the
`token, err := ...` short variable declaration, so the surfaced failure is
the primitive's key rejection — never `ErrKeyParse` — with either error-port
setting; the same holds for the EC family. -/
theorem rs256_invalid_key_never_errKeyParse :
    (resolveMethodKey "RS256" "not a valid pem").2.2 =
      some (.errKeyParse "invalid key: key must be a PEM encoded key") ∧
    (resolveMethodKey "ES256" "not a valid pem").2.2 =
      some (.errKeyParse "invalid key: key must be a PEM encoded key") ∧
    (∀ (env : Env) (ctx : JsonValue) (claims : List (String × JsonValue)),
      handleRequest env false ⟨ctx, "RS256", claims, "not a valid pem"⟩ =
        .rawError "key is of invalid type" ∧
      handleRequest env true ⟨ctx, "RS256", claims, "not a valid pem"⟩ =
        .errorOut ctx "key is of invalid type" ∧
      handleRequest env false ⟨ctx, "ES256", claims, "not a valid pem"⟩ =
        .rawError "key is of invalid type") := by
  refine ⟨rfl, rfl, ?_⟩
  intro env ctx claims
  have hr : resolveMethodKey "RS256" "not a valid pem" =
      (.RS256, (.rsaNil,
        some (.errKeyParse "invalid key: key must be a PEM encoded key"))) := rfl
  have he : resolveMethodKey "ES256" "not a valid pem" =
      (.ES256, (.ecNil,
        some (.errKeyParse "invalid key: key must be a PEM encoded key"))) := rfl
  refine ⟨?_, ?_, ?_⟩ <;>
    simp [handleRequest, hr, he, signedString, signPrimitive, errString]

/-- C3 counterexample: the selector "FOO" (outside the enumerated ten) with
key text "secret" is not rejected, but it does not behave equivalently to
selecting HS256 with the same claims and key text: HS256 produces a token,
while "FOO" fails with the primitive's key rejection. -/
theorem unknown_selector_counterexample :
    handleRequest envZero false ⟨.null, "FOO", [], "secret"⟩ =
      .rawError "key is of invalid type" ∧
    (∃ tok, handleRequest envZero false ⟨.null, "HS256", [], "secret"⟩ =
      .response .null tok) ∧
    handleRequest envZero false ⟨.null, "FOO", [], "secret"⟩ ≠
      handleRequest envZero false ⟨.null, "HS256", [], "secret"⟩ := by
  have h1 : handleRequest envZero false ⟨.null, "FOO", [], "secret"⟩ =
      .rawError "key is of invalid type" := rfl
  have h2 : ∃ tok, handleRequest envZero false ⟨.null, "HS256", [], "secret"⟩ =
      .response .null tok := ⟨_, rfl⟩
  obtain ⟨tok, htok⟩ := h2
  refine ⟨h1, ⟨tok, htok⟩, ?_⟩
  rw [h1, htok]
  exact fun hc => HandleResult.noConfusion hc

/-- C3 amended: a selector outside the ten enumerated values is not rejected
at dispatch — the default method HS256 is substituted — but the invocation is
not equivalent to one that had selected "HS256": the key assignment of the
matched case is skipped, the signer receives the nil key, and every such
request fails with the primitive's key rejection instead of producing the
HS256 token. -/
theorem unknown_selector_default (sel : String) (hsel : sel ∉ methodSelectors) :
    (∀ keyText, resolveMethodKey sel keyText = (.HS256, (.nilKey, Option.none))) ∧
    (∀ (env : Env) (ep : Bool) (ctx : JsonValue)
        (claims : List (String × JsonValue)) (keyText : String),
      handleRequest env ep ⟨ctx, sel, claims, keyText⟩ =
        if ep then .errorOut ctx "key is of invalid type"
        else .rawError "key is of invalid type") := by
  simp only [methodSelectors, List.mem_cons, List.mem_singleton, not_or] at hsel
  obtain ⟨h1, h2, h3, h4, h5, h6, h7, h8, h9, h10⟩ := hsel
  have hres : ∀ keyText, resolveMethodKey sel keyText =
      (.HS256, (.nilKey, Option.none)) := by
    intro keyText
    simp [resolveMethodKey, h1, h2, h3, h4, h5, h6, h7, h8, h9, h10]
  refine ⟨hres, ?_⟩
  intro env ep ctx claims keyText
  simp [handleRequest, hres, signedString, signPrimitive, errString]

/-- Witness for the amended C3 at the concrete selector "FOO". -/
theorem unknown_selector_default_witness :
    ("FOO" : String) ∉ methodSelectors ∧
    resolveMethodKey "FOO" "secret" = (.HS256, (.nilKey, Option.none)) ∧
    handleRequest envZero false ⟨.null, "FOO", [], "secret"⟩ =
      .rawError "key is of invalid type" := by
  have hn : ("FOO" : String) ∉ methodSelectors := by decide
  refine ⟨hn, (unknown_selector_default "FOO" hn).1 "secret", ?_⟩
  have h := (unknown_selector_default "FOO" hn).2 envZero false .null [] "secret"
  simpa using h

end JwtEncode

namespace JwtEncode

/-- C7: every HS256 invocation yields a response token of exactly three
dot-separated unpadded base64url segments; the first decodes to the
marshalled header bytes and the second to the marshalled full claims mapping
(verbatim passthrough of every caller-supplied key); concretely, the header
marshals to the JSON text with alg "HS256" and typ "JWT", and the claims
document with the single pair sub ↦ "user1" marshals to exactly that pair. -/
theorem hs256_token_shape :
    (∀ (env : Env) (ep : Bool) (ctx : JsonValue)
        (claims : List (String × JsonValue)) (keyText : String), ∃ sig,
      handleRequest env ep ⟨ctx, "HS256", claims, keyText⟩ =
        .response ctx (b64urlEncode (utf8Str (headerJson .HS256)) ++
          '.' :: b64urlEncode (utf8Str (marshalClaims claims)) ++
          '.' :: b64urlEncode sig) ∧
      charSplit '.' (b64urlEncode (utf8Str (headerJson .HS256)) ++
          '.' :: b64urlEncode (utf8Str (marshalClaims claims)) ++
          '.' :: b64urlEncode sig) =
        [b64urlEncode (utf8Str (headerJson .HS256)),
         b64urlEncode (utf8Str (marshalClaims claims)),
         b64urlEncode sig] ∧
      b64urlDecode (b64urlEncode (utf8Str (headerJson .HS256))) =
        some (utf8Str (headerJson .HS256)) ∧
      b64urlDecode (b64urlEncode (utf8Str (marshalClaims claims))) =
        some (utf8Str (marshalClaims claims)) ∧
      '=' ∉ (b64urlEncode (utf8Str (headerJson .HS256)) ++
          '.' :: b64urlEncode (utf8Str (marshalClaims claims)) ++
          '.' :: b64urlEncode sig)) ∧
    headerJson .HS256 = "\x7b\"alg\":\"HS256\",\"typ\":\"JWT\"\x7d" ∧
    marshalClaims [("sub", .str "user1")] = "\x7b\"sub\":\"user1\"\x7d" := by
  refine ⟨?_, rfl, rfl⟩
  intro env ep ctx claims keyText
  refine ⟨macBytes (methodAlg .HS256)
      (b64urlEncode (utf8Str (headerJson .HS256)) ++
        '.' :: b64urlEncode (utf8Str (marshalClaims claims)))
      (utf8Str keyText), ?_, ?_, ?_, ?_, ?_⟩
  · have hr : resolveMethodKey "HS256" keyText =
        (.HS256, (.bytes (utf8Str keyText), Option.none)) := rfl
    simp [handleRequest, hr, signedString, signPrimitive]
  · exact charSplit_token _ _ _ (b64urlEncode_no_dot _) (b64urlEncode_no_dot _)
      (b64urlEncode_no_dot _)
  · exact b64_roundtrip _ (utf8Str_lt256 _)
  · exact b64_roundtrip _ (utf8Str_lt256 _)
  · intro hmem
    rcases List.mem_append.mp hmem with hmem | hmem
    · rcases List.mem_append.mp hmem with hmem | hmem
      · exact b64urlEncode_no_pad _ hmem
      · rcases List.mem_cons.mp hmem with hmem | hmem
        · exact absurd hmem (by decide)
        · exact b64urlEncode_no_pad _ hmem
    · rcases List.mem_cons.mp hmem with hmem | hmem
      · exact absurd hmem (by decide)
      · exact b64urlEncode_no_pad _ hmem

end JwtEncode
